import Mathlib

unseal Rat.add Rat.inv Rat.mul Rat.sub Rat.ofScientific

/-!
# Verification of the Rubik's cube face-rotation core (`src/index.ts`)

Shallow embedding of the face-rotation state machine of the repository:
the key→face input handler (`handleRotation` and the `keydown` listener),
the per-frame animation driver and finalize step (`renderScene`), the face
index table (`createCubies` / `populateSideIndices`), the per-face rotation
axes (`getSideRotationAxes`) and the per-piece cumulative orientation
(`Cubie.rotationQuat`, `Cubie.applyRotation`).

Numerics: every rotation the program ever composes into an orientation is a
quarter turn (±90°) about a coordinate axis, so the half-angle sines and
cosines are 0, ±√2/2 or 1.  We therefore carry quaternion components in the
ring ℚ[√2] (`Q2` below), with exact arithmetic standing in for the
floating-point arithmetic of the JavaScript host.
-/

/-- The ring ℚ[√2]: `⟨a, b⟩` denotes `a + b·√2`.  Exact carrier for the
quaternion components produced by quarter-turn rotations. -/
structure Q2 where
  a : ℚ
  b : ℚ
deriving DecidableEq, Repr

namespace Q2

instance : Zero Q2 := ⟨⟨0, 0⟩⟩
instance : One Q2 := ⟨⟨1, 0⟩⟩
instance : Add Q2 := ⟨fun p q => ⟨p.a + q.a, p.b + q.b⟩⟩
instance : Neg Q2 := ⟨fun p => ⟨-p.a, -p.b⟩⟩
instance : Sub Q2 := ⟨fun p q => p + -q⟩
instance : Mul Q2 := ⟨fun p q => ⟨p.a * q.a + 2 * p.b * q.b, p.a * q.b + p.b * q.a⟩⟩

/-- Embed a rational scalar (used for axis components). -/
def ofRat (r : ℚ) : Q2 := ⟨r, 0⟩

end Q2

/-- A quaternion with components in ℚ[√2], laid out as gl-matrix stores it:
`x`, `y`, `z` imaginary parts and `w` real part. -/
structure Quat where
  x : Q2
  y : Q2
  z : Q2
  w : Q2
deriving DecidableEq, Repr

/-- A 3-vector of rational coordinates (gl-matrix `vec3`; the program only
ever builds axis vectors and grid positions with the components used here). -/
structure Vec3 where
  x : ℚ
  y : ℚ
  z : ℚ
deriving DecidableEq, Repr

namespace Quat

/-- Hamilton product, exactly the component formula of gl-matrix
`quat.multiply(out, a, b)`. -/
def mul (p q : Quat) : Quat :=
  ⟨p.x * q.w + p.w * q.x + p.y * q.z - p.z * q.y,
   p.y * q.w + p.w * q.y + p.z * q.x - p.x * q.z,
   p.z * q.w + p.w * q.z + p.x * q.y - p.y * q.x,
   p.w * q.w - p.x * q.x - p.y * q.y - p.z * q.z⟩

/-- Componentwise negation of a quaternion. -/
def neg (q : Quat) : Quat := ⟨-q.x, -q.y, -q.z, -q.w⟩

/-- Squared norm `x² + y² + z² + w²` of a quaternion. -/
def normSq (q : Quat) : Q2 := q.x * q.x + q.y * q.y + q.z * q.z + q.w * q.w

/-- The identity quaternion `(0,0,0,1)`. -/
def id : Quat := ⟨0, 0, 0, 1⟩

end Quat

/-- Exact value of `sin(deg/2 · π/180)` at the angles the program feeds to
`quat.setAxisAngle` (0 in the `Cubie` constructor, `turns·90` with
`turns ∈ {-1,1}` in `applyRotation`); `sin(±45°) = ±√2/2`.  Other angles
never occur; the final branch is a dead default. -/
def sinHalfDeg (deg : ℚ) : Q2 :=
  if deg = 0 then 0
  else if deg = 90 then ⟨0, 1/2⟩
  else if deg = -90 then ⟨0, -(1/2)⟩
  else 0

/-- Exact value of `cos(deg/2 · π/180)` at the same angles;
`cos(±45°) = √2/2`.  Other angles never occur; dead default. -/
def cosHalfDeg (deg : ℚ) : Q2 :=
  if deg = 0 then 1
  else if deg = 90 ∨ deg = -90 then ⟨0, 1/2⟩
  else 1

/-- gl-matrix `quat.setAxisAngle(out, axis, glMatrix.toRadian(deg))`:
`out = (axis.x·s, axis.y·s, axis.z·s, c)` with `s = sin(rad/2)`,
`c = cos(rad/2)`, expressed exactly at the quarter-turn angles used. -/
def setAxisAngle (axis : Vec3) (deg : ℚ) : Quat :=
  ⟨Q2.ofRat axis.x * sinHalfDeg deg,
   Q2.ofRat axis.y * sinHalfDeg deg,
   Q2.ofRat axis.z * sinHalfDeg deg,
   cosHalfDeg deg⟩

/-- `Cubie.applyRotation(worldRotationAngle, rotationAxis)`: pre-multiplies
the cubie's cumulative `rotationQuat` by the incremental quarter-turn
quaternion (`quat.multiply(this.rotationQuat, incrementalQuat,
this.rotationQuat)`). -/
def applyRotation (orientation : Quat) (worldRotationAngle : ℚ) (rotationAxis : Vec3) : Quat :=
  Quat.mul (setAxisAngle rotationAxis worldRotationAngle) orientation

/-!
## Face index table and rotation axes

`createCubies` builds the 27 cubies with `x` the outer loop, `y` the middle
and `z` the inner loop over `COORDINATES = [-2.25, 0, 2.25]`, so cubie
`index` has grid coordinates `(index / 9, index % 9 / 3, index % 3)`;
`populateSideIndices(index)` pushes `index` into one x-bin, one y-bin and
one z-bin, in increasing index order.
-/

/-- `COORDINATES = [-2.25, 0, 2.25]`, the grid positions per axis. -/
def COORDINATES : List ℚ := [-(9/4), 0, 9/4]

/-- x-coordinate of cubie `index` from the `createCubies` loop nesting. -/
def posX (index : ℕ) : ℚ := COORDINATES.getD (index / 9) 0

/-- y-coordinate of cubie `index` from the `createCubies` loop nesting. -/
def posY (index : ℕ) : ℚ := COORDINATES.getD (index % 9 / 3) 0

/-- z-coordinate of cubie `index` from the `createCubies` loop nesting. -/
def posZ (index : ℕ) : ℚ := COORDINATES.getD (index % 3) 0

/-- The x-axis bin `populateSideIndices` pushes `index` into
(`index < 9` → left, `index < 18` → middle, otherwise right). -/
def xBinOf (index : ℕ) : String :=
  if index < 9 then "left" else if index < 18 then "middle" else "right"

/-- The y-axis bin (`index % 9 < 3` → bottom, `< 6` → equator, else top). -/
def yBinOf (index : ℕ) : String :=
  if index % 9 < 3 then "bottom" else if index % 9 < 6 then "equator" else "top"

/-- The z-axis bin (`index % 3 = 0` → back, `= 1` → standing, else front). -/
def zBinOf (index : ℕ) : String :=
  if index % 3 = 0 then "back" else if index % 3 = 1 then "standing" else "front"

/-- `sideIndices[side]` after the `createCubies` construction loop: the
indices `0..26` pushed into bin `side`, in increasing order (each index is
appended to exactly one bin per axis as the loop visits it, so each bin is
the filtered, ordered range).  An unknown `side` yields `[]` (the record
has no such key). -/
def sideIndices (side : String) : List ℕ :=
  (List.range 27).filter fun index =>
    xBinOf index = side ∨ yBinOf index = side ∨ zBinOf index = side

/-- The nine face names that key `sideIndices` and `getSideRotationAxes`. -/
def faceNames : List String :=
  ["left", "middle", "right", "bottom", "equator", "top", "back", "standing", "front"]

/-- `getSideRotationAxes()[side]`: z-axis for front/standing/back, y-axis
for top/equator/bottom, x-axis for right/middle/left.  An unknown `side`
has no entry in the record; the dead default returns the zero vector. -/
def getSideRotationAxes (side : String) : Vec3 :=
  if side = "front" ∨ side = "standing" ∨ side = "back" then ⟨0, 0, 1⟩
  else if side = "top" ∨ side = "equator" ∨ side = "bottom" then ⟨0, 1, 0⟩
  else if side = "right" ∨ side = "middle" ∨ side = "left" then ⟨1, 0, 0⟩
  else ⟨0, 0, 0⟩

/-!
## The turn state machine

State of the render loop: the module-level mutables `turns` and
`sideToRotate`, the closure variables `angle`, `cubiesToRotate` and
`axisOfRotation` of `loadScene`, and the 27 cubies' cumulative
`rotationQuat`s.  Positions never change, so only orientations are carried.
-/

/-- The mutable state of the program relevant to turns: `turns` and
`sideToRotate` (module globals), `angle`, `cubiesToRotate`,
`axisOfRotation` (closure variables of `loadScene`) and each cubie's
`rotationQuat` (indexed 0..26). -/
structure Machine where
  turns : ℤ
  sideToRotate : String
  angle : ℚ
  cubiesToRotate : List ℕ
  axisOfRotation : Vec3
  orientations : List Quat
deriving DecidableEq, Repr

/-- `speed = 1.5` degrees per frame (`renderScene`). -/
def speed : ℚ := 3/2

/-- Initial state: `turns = 0`, `sideToRotate` and `axisOfRotation`
undefined in the source (modelled as `""` and the zero vector; both are
written before first meaningful use), `angle = 0`, `cubiesToRotate = []`,
and every cubie's `rotationQuat` set by the constructor to
`setAxisAngle((1,0,0), toRadian(0))`, the identity quaternion. -/
def initMachine : Machine :=
  { turns := 0
    sideToRotate := ""
    angle := 0
    cubiesToRotate := []
    axisOfRotation := ⟨0, 0, 0⟩
    orientations := List.replicate 27 (setAxisAngle ⟨1, 0, 0⟩ 0) }

/-- Lowercasing of an event key (`event.key.toLowerCase()`; the JS and Lean
functions agree on the ASCII keys involved). -/
def toLowerCase (s : String) : String := String.mk (s.data.map Char.toLower)

/-- The `keyMap` record of the `keydown` listener. -/
def keyMap (k : String) : Option String :=
  if k = "f" then some "front"
  else if k = "s" then some "standing"
  else if k = "k" then some "back"
  else if k = "t" then some "top"
  else if k = "e" then some "equator"
  else if k = "b" then some "bottom"
  else if k = "r" then some "right"
  else if k = "m" then some "middle"
  else if k = "l" then some "left"
  else none

/-- `handleRotation(key, side)`: unconditionally sets
`turns = key === key.toLowerCase() ? -1 : 1` and `sideToRotate = side`. -/
def handleRotation (key side : String) (s : Machine) : Machine :=
  { s with turns := if key = toLowerCase key then -1 else 1, sideToRotate := side }

/-- The `keydown` listener: look the lowercased key up in `keyMap`; if it
maps to a side, call `handleRotation`, otherwise do nothing. -/
def keydownStep (key : String) (s : Machine) : Machine :=
  match keyMap (toLowerCase key) with
  | some side => handleRotation key side s
  | none => s

/-- `cubies[index].applyRotation(inc)` as a list update: replace the
orientation at `index` by the pre-multiplied product (indices are always in
range in the program). -/
def applyAt (os : List Quat) (index : ℕ) (inc : Quat) : List Quat :=
  os.set index (Quat.mul inc (os.getD index Quat.id))

/-- `cubiesToRotate.forEach(index => cubies[index].applyRotation(...))`:
fold the per-index update over the list in order. -/
def commitAll (os : List Quat) (idxs : List ℕ) (inc : Quat) : List Quat :=
  idxs.foldl (fun acc index => applyAt acc index inc) os

/-- One invocation of `renderScene` (the state-relevant part): if a turn is
active, advance `angle` by `speed`; the draw loop then assigns
`cubiesToRotate` and `axisOfRotation` from the active side (it does so once
per cubie with the same values; drawing itself has no state effect);
finally, if `angle >= 90`, apply `turns * 90` about `axisOfRotation` to
every index in `cubiesToRotate` and reset `angle` and `turns` to 0. -/
def frameStep (s : Machine) : Machine :=
  let s1 := if s.turns ≠ 0 then { s with angle := s.angle + speed } else s
  let s2 := if s1.turns ≠ 0 then
      { s1 with cubiesToRotate := sideIndices s1.sideToRotate
                axisOfRotation := getSideRotationAxes s1.sideToRotate }
    else s1
  if 90 ≤ s2.angle then
    let inc := setAxisAngle s2.axisOfRotation ((s2.turns : ℚ) * 90)
    { s2 with orientations := commitAll s2.orientations s2.cubiesToRotate inc
              angle := 0
              turns := 0 }
  else s2

/-- `n` consecutive frames with no intervening input. -/
def runFrames : ℕ → Machine → Machine
  | 0, s => s
  | n + 1, s => runFrames n (frameStep s)

/-- The states reachable by the program: the initial state, closed under
`keydown` events and frame callbacks. -/
inductive Reach : Machine → Prop
  | init : Reach initMachine
  | key (k : String) {s : Machine} : Reach s → Reach (keydownStep k s)
  | frame {s : Machine} : Reach s → Reach (frameStep s)

/-- Invariant of every reachable state: `turns` is a direction or zero, the
angle sits in `[0, 90)` and is zero while idle, an active side is one of
the nine faces, and all 27 orientations are unit quaternions. -/
def MachineInv (s : Machine) : Prop :=
  (s.turns = -1 ∨ s.turns = 0 ∨ s.turns = 1) ∧
  0 ≤ s.angle ∧ s.angle < 90 ∧
  (s.turns = 0 → s.angle = 0) ∧
  (s.turns ≠ 0 → s.sideToRotate ∈ faceNames) ∧
  s.orientations.length = 27 ∧
  (∀ i, i < 27 → ((s.orientations.getD i Quat.id).normSq = 1))

/-- States from which a run of frames can only ever commit to side `F`:
the active side is `F`, and while idle the angle is below the finalize
threshold (so the stale branch never fires). -/
def SafeRun (F : String) (s : Machine) : Prop :=
  s.sideToRotate = F ∧ (s.turns = 0 → s.angle < 90)

/-- One complete user-triggered turn: a mapped keydown followed by the 60
frames that finish the 90° animation. -/
def turnOnce (key : String) (s : Machine) : Machine := runFrames 60 (keydownStep key s)

/-!
## Algebraic facts about the quaternion model
-/

/-- The componentwise unfoldings of the ℚ[√2] ring operations. -/
theorem Q2.zero_def : (0 : Q2) = ⟨0, 0⟩ := rfl

theorem Q2.one_def : (1 : Q2) = ⟨1, 0⟩ := rfl

theorem Q2.add_def (p q : Q2) : p + q = ⟨p.a + q.a, p.b + q.b⟩ := rfl

theorem Q2.neg_def (p : Q2) : -p = ⟨-p.a, -p.b⟩ := rfl

theorem Q2.mul_def (p q : Q2) : p * q = ⟨p.a * q.a + 2 * p.b * q.b, p.a * q.b + p.b * q.a⟩ := rfl

/-- Subtraction on ℚ[√2] acts componentwise. -/
theorem Q2.sub_def (p q : Q2) : p - q = ⟨p.a - q.a, p.b - q.b⟩ := by
  show p + -q = _
  simp [Q2.add_def, Q2.neg_def, sub_eq_add_neg]

/-- The squared norm is multiplicative over the Hamilton product (the
four-square identity, carried out in ℚ[√2]). -/
theorem Quat.normSq_mul (p q : Quat) :
    (Quat.mul p q).normSq = p.normSq * q.normSq := by
  cases p with | mk px py pz pw =>
  cases q with | mk qx qy qz qw =>
  cases px; cases py; cases pz; cases pw
  cases qx; cases qy; cases qz; cases qw
  simp only [Quat.mul, Quat.normSq, Q2.mul_def, Q2.add_def, Q2.sub_def, Q2.one_def, Q2.mk.injEq]
  constructor <;> ring

/-- The components of `0` and `1` in ℚ[√2]. -/
theorem Q2.zero_a : (0 : Q2).a = 0 := rfl

theorem Q2.zero_b : (0 : Q2).b = 0 := rfl

theorem Q2.one_a : (1 : Q2).a = 1 := rfl

theorem Q2.one_b : (1 : Q2).b = 0 := rfl

/-- Multiplying on the left by the quaternion `-1` negates every component. -/
theorem Quat.mul_negOne (q : Quat) :
    Quat.mul ⟨0, 0, 0, -1⟩ q = Quat.neg q := by
  cases q with | mk qx qy qz qw =>
  cases qx; cases qy; cases qz; cases qw
  simp only [Quat.mul, Quat.neg, Q2.mul_def, Q2.add_def, Q2.sub_def, Q2.neg_def, Q2.zero_def,
    Q2.zero_a, Q2.zero_b, Q2.one_a, Q2.one_b, Q2.mk.injEq]
  norm_num

/-!
## Behaviour of the per-index commit loop
-/

/-- `applyAt` preserves the length of the orientation list. -/
theorem applyAt_length (os : List Quat) (index : ℕ) (inc : Quat) :
    (applyAt os index inc).length = os.length := by
  simp [applyAt]

/-- Peeling one index off the commit fold. -/
theorem commitAll_cons (os : List Quat) (j : ℕ) (rest : List ℕ) (inc : Quat) :
    commitAll os (j :: rest) inc = commitAll (applyAt os j inc) rest inc := rfl

/-- `commitAll` preserves the length of the orientation list. -/
theorem commitAll_length (idxs : List ℕ) (os : List Quat) (inc : Quat) :
    (commitAll os idxs inc).length = os.length := by
  induction idxs generalizing os with
  | nil => rfl
  | cons j rest ih => rw [commitAll_cons, ih, applyAt_length]

/-- Reading an `applyAt` result: index `index` (when in range) holds the
pre-multiplied product, every other index is untouched. -/
theorem applyAt_getD (os : List Quat) (index : ℕ) (inc : Quat) (i : ℕ) :
    (applyAt os index inc).getD i Quat.id =
      if index = i ∧ i < os.length then Quat.mul inc (os.getD i Quat.id)
      else os.getD i Quat.id := by
  simp only [applyAt, List.getD_eq_getElem?_getD, List.getElem?_set]
  rcases eq_or_ne index i with rfl | hne
  · rcases Nat.lt_or_ge index os.length with hlen | hlen
    · simp [hlen]
    · simp [Nat.not_lt.mpr hlen, List.getElem?_eq_none hlen]
  · simp [hne]

/-- Reading a `commitAll` result for a duplicate-free index list: every
listed in-range index holds exactly one pre-multiplied product, every other
index is untouched — the `forEach` of the finalize step fires exactly once
per listed piece. -/
theorem commitAll_getD (idxs : List ℕ) (os : List Quat) (inc : Quat)
    (hnd : idxs.Nodup) (i : ℕ) :
    (commitAll os idxs inc).getD i Quat.id =
      if i ∈ idxs ∧ i < os.length then Quat.mul inc (os.getD i Quat.id)
      else os.getD i Quat.id := by
  induction idxs generalizing os with
  | nil => simp [commitAll]
  | cons j rest ih =>
    obtain ⟨hj, hrest⟩ := List.nodup_cons.mp hnd
    rw [commitAll_cons, ih _ hrest, applyAt_length, applyAt_getD]
    by_cases hmem : i ∈ rest
    · have hne : ¬ j = i := fun h => hj (h ▸ hmem)
      by_cases hlen : i < os.length
      · simp [hmem, hlen, hne, List.mem_cons]
      · simp [hmem, hlen, hne]
    · by_cases heq : i = j
      · subst heq
        simp [hmem, List.mem_cons]
      · have hne : ¬ j = i := fun h => heq h.symm
        simp [hmem, heq, hne, List.mem_cons]

/-- `commitAll` with a unit-norm increment preserves unit norms. -/
theorem commitAll_normSq (idxs : List ℕ) (os : List Quat) (inc : Quat)
    (hinc : inc.normSq = 1)
    (h : ∀ i, i < os.length → (os.getD i Quat.id).normSq = 1) :
    ∀ i, i < (commitAll os idxs inc).length →
      ((commitAll os idxs inc).getD i Quat.id).normSq = 1 := by
  induction idxs generalizing os with
  | nil => exact h
  | cons j rest ih =>
    rw [commitAll_cons]
    refine ih _ ?_
    intro i hi
    rw [applyAt_length] at hi
    rw [applyAt_getD]
    by_cases hc : j = i ∧ i < os.length
    · rw [if_pos hc, Quat.normSq_mul, hinc, h i hi]
      decide
    · rw [if_neg hc]
      exact h i hi

/-!
## Case shapes of a single frame
-/

/-- An idle frame (`turns = 0`, `angle < 90`) leaves the state unchanged. -/
theorem frameStep_idle (s : Machine) (h0 : s.turns = 0) (h90 : s.angle < 90) :
    frameStep s = s := by
  simp [frameStep, h0, not_lt.mpr, not_le.mpr h90]

/-- An animating, non-final frame advances `angle` by `speed` and refreshes
the cached rotation set and axis; nothing else changes. -/
theorem frameStep_anim (s : Machine) (hT : s.turns ≠ 0) (h90 : s.angle + speed < 90) :
    frameStep s =
      { s with angle := s.angle + speed
               cubiesToRotate := sideIndices s.sideToRotate
               axisOfRotation := getSideRotationAxes s.sideToRotate } := by
  simp [frameStep, hT, not_le.mpr h90]

/-- A final frame (`angle + speed ≥ 90`) commits `turns * 90` about the
active side's axis to exactly the active side's index list and resets
`angle` and `turns` to 0. -/
theorem frameStep_final (s : Machine) (hT : s.turns ≠ 0) (h90 : 90 ≤ s.angle + speed) :
    frameStep s =
      { s with angle := 0
               turns := 0
               cubiesToRotate := sideIndices s.sideToRotate
               axisOfRotation := getSideRotationAxes s.sideToRotate
               orientations := commitAll s.orientations (sideIndices s.sideToRotate)
                 (setAxisAngle (getSideRotationAxes s.sideToRotate) ((s.turns : ℚ) * 90)) } := by
  simp [frameStep, hT, h90]

/-!
## The keydown listener
-/

/-- A mapped key names one of the nine faces. -/
theorem keyMap_mem_faceNames (k F : String) (h : keyMap k = some F) : F ∈ faceNames := by
  unfold keyMap at h
  split_ifs at h <;> simp_all [faceNames]

/-- Shape of a mapped keydown: `handleRotation` overwrites `turns` with the
direction of the key and `sideToRotate` with the mapped face, whatever the
current state is. -/
theorem keydownStep_mapped (key F : String) (s : Machine)
    (h : keyMap (toLowerCase key) = some F) :
    keydownStep key s =
      { s with turns := if key = toLowerCase key then -1 else 1, sideToRotate := F } := by
  unfold keydownStep
  rw [h]
  rfl

/-- Shape of an unmapped keydown: no state change at all. -/
theorem keydownStep_unmapped (key : String) (s : Machine)
    (h : keyMap (toLowerCase key) = none) :
    keydownStep key s = s := by
  unfold keydownStep
  rw [h]

/-- A mapped keydown puts a nonzero direction into `turns`. -/
theorem keydownStep_turns_ne_zero (key F : String) (s : Machine)
    (h : keyMap (toLowerCase key) = some F) :
    (keydownStep key s).turns = -1 ∨ (keydownStep key s).turns = 1 := by
  rw [keydownStep_mapped key F s h]
  by_cases hk : key = toLowerCase key
  · left
    exact if_pos hk
  · right
    exact if_neg hk

/-!
## The reachability invariant
-/

/-- The quarter-turn increment committed by a finalize step is a unit
quaternion, for every face and both directions. -/
theorem setAxisAngle_normSq (F : String) (hF : F ∈ faceNames) (d : ℤ)
    (hd : d = -1 ∨ d = 1) :
    (setAxisAngle (getSideRotationAxes F) ((d : ℚ) * 90)).normSq = 1 := by
  fin_cases hF <;> rcases hd with rfl | rfl <;> decide

/-- The initial state satisfies the invariant. -/
theorem machineInv_init : MachineInv initMachine := by
  unfold MachineInv initMachine
  decide

/-- A keydown event preserves the invariant (it touches only `turns` and
`sideToRotate`, writing a direction and a mapped face). -/
theorem machineInv_keydown (k : String) (s : Machine) (h : MachineInv s) :
    MachineInv (keydownStep k s) := by
  rcases hk : keyMap (toLowerCase k) with _ | F
  · rwa [keydownStep_unmapped k s hk]
  · rw [keydownStep_mapped k F s hk]
    obtain ⟨ht, h0, h90, hidle, hside, hlen, hnorm⟩ := h
    refine ⟨?_, h0, h90, ?_, ?_, hlen, hnorm⟩
    · by_cases hc : k = toLowerCase k
      · exact Or.inl (if_pos hc)
      · exact Or.inr (Or.inr (if_neg hc))
    · intro hz
      have hz2 : (if k = toLowerCase k then (-1 : ℤ) else 1) = 0 := hz
      split at hz2 <;> omega
    · intro _
      exact keyMap_mem_faceNames _ _ hk

/-- A frame callback preserves the invariant. -/
theorem machineInv_frame (s : Machine) (h : MachineInv s) : MachineInv (frameStep s) := by
  obtain ⟨ht, h0, h90, hidle, hside, hlen, hnorm⟩ := h
  by_cases hT : s.turns = 0
  · rw [frameStep_idle s hT h90]
    exact ⟨ht, h0, h90, hidle, hside, hlen, hnorm⟩
  · by_cases hfin : 90 ≤ s.angle + speed
    · rw [frameStep_final s hT hfin]
      have hF : s.sideToRotate ∈ faceNames := hside hT
      have hd : s.turns = -1 ∨ s.turns = 1 := by
        rcases ht with h1 | h1 | h1
        · exact Or.inl h1
        · exact absurd h1 hT
        · exact Or.inr h1
      refine ⟨Or.inr (Or.inl rfl), le_refl 0, by norm_num, fun _ => rfl,
        fun hne => absurd rfl hne, ?_, ?_⟩
      · rw [commitAll_length]
        exact hlen
      · intro i hi
        refine commitAll_normSq (sideIndices s.sideToRotate) s.orientations _
          (setAxisAngle_normSq _ hF _ hd) (fun j hj => hnorm j (by omega)) i ?_
        rw [commitAll_length]
        omega
    · rw [frameStep_anim s hT (not_le.mp hfin)]
      have hsp : (0 : ℚ) < speed := by norm_num [speed]
      refine ⟨ht, ?_, ?_, ?_, hside, hlen, hnorm⟩
      · show (0 : ℚ) ≤ s.angle + speed
        linarith
      · exact not_le.mp hfin
      · intro hz
        exact absurd hz hT

/-- Every reachable state satisfies the invariant. -/
theorem reach_inv (s : Machine) (h : Reach s) : MachineInv s := by
  induction h with
  | init => exact machineInv_init
  | key k _ ih => exact machineInv_keydown k _ ih
  | frame _ ih => exact machineInv_frame _ ih

/-!
## A complete turn: 60 frames at 1.5° per frame
-/

/-- Frames can be peeled off the end of a run as well as the start. -/
theorem runFrames_succ (n : ℕ) (s : Machine) :
    runFrames (n + 1) s = frameStep (runFrames n s) := by
  induction n generalizing s with
  | zero => rfl
  | succ n ih =>
    show runFrames (n + 1) (frameStep s) = frameStep (runFrames (n + 1) s)
    rw [ih (frameStep s)]
    rfl

/-- After `k ∈ [1, 59]` frames of an animating turn started at angle 0,
the angle is `k·speed` and nothing else has moved (the cached rotation set
and axis have been refreshed from the active side). -/
theorem runFrames_anim (s : Machine) (hT : s.turns ≠ 0) (hA : s.angle = 0) (k : ℕ)
    (hk1 : 1 ≤ k) (hk : k ≤ 59) :
    runFrames k s =
      { s with angle := (k : ℚ) * speed
               cubiesToRotate := sideIndices s.sideToRotate
               axisOfRotation := getSideRotationAxes s.sideToRotate } := by
  induction k with
  | zero => omega
  | succ k ih =>
    rcases Nat.eq_zero_or_pos k with rfl | hpos
    · show frameStep s = _
      rw [frameStep_anim s hT (by rw [hA]; norm_num [speed])]
      rw [hA]
      norm_num
    · rw [runFrames_succ, ih hpos (by omega)]
      have h90 : ((k : ℚ) * speed) + speed < 90 := by
        have hk58 : (k : ℚ) ≤ 58 := by
          have hk0 : k ≤ 58 := by omega
          exact_mod_cast hk0
        norm_num [speed]
        linarith
      rw [frameStep_anim
        { s with angle := (k : ℚ) * speed
                 cubiesToRotate := sideIndices s.sideToRotate
                 axisOfRotation := getSideRotationAxes s.sideToRotate } hT h90]
      push_cast
      ring_nf

/-- A full turn: starting a run of 60 frames with an active side and angle
0, the 60th frame finalizes — the active side's pieces are committed a
`turns * 90` rotation about the side's axis, and the controller returns to
idle (`turns = 0`, `angle = 0`). -/
theorem completeTurn (s : Machine) (hT : s.turns ≠ 0) (hA : s.angle = 0) :
    runFrames 60 s =
      { s with turns := 0
               angle := 0
               cubiesToRotate := sideIndices s.sideToRotate
               axisOfRotation := getSideRotationAxes s.sideToRotate
               orientations := commitAll s.orientations (sideIndices s.sideToRotate)
                 (setAxisAngle (getSideRotationAxes s.sideToRotate) ((s.turns : ℚ) * 90)) } := by
  have h59 := runFrames_anim s hT hA 59 (by omega) (le_refl _)
  have h90 : 90 ≤ (((59 : ℕ) : ℚ) * speed) + speed := by
    push_cast
    norm_num [speed]
  rw [show (60 : ℕ) = 59 + 1 from rfl, runFrames_succ, h59,
    frameStep_final
      { s with angle := ((59 : ℕ) : ℚ) * speed
               cubiesToRotate := sideIndices s.sideToRotate
               axisOfRotation := getSideRotationAxes s.sideToRotate } hT h90]

/-!
## Facts about the face index table
-/

/-- Each face bin is duplicate-free (every index is pushed at most once). -/
theorem sideIndices_nodup (side : String) : (sideIndices side).Nodup :=
  (List.nodup_range 27).filter _

/-- Every index in a face bin is one of the 27 cubie indices. -/
theorem sideIndices_lt27 (side : String) (i : ℕ) (h : i ∈ sideIndices side) : i < 27 :=
  List.mem_range.mp (List.mem_of_mem_filter h)

/-!
## Orientation preservation off the active side
-/

/-- The degenerate frame shape (`turns = 0` but `angle ≥ 90`, unreachable
in practice): the stale cached rotation set is committed a rotation of
`0 * 90 = 0` degrees and the angle is reset. -/
theorem frameStep_stale (s : Machine) (h0 : s.turns = 0) (h90 : 90 ≤ s.angle) :
    frameStep s =
      { s with angle := 0
               turns := 0
               orientations := commitAll s.orientations s.cubiesToRotate
                 (setAxisAngle s.axisOfRotation ((s.turns : ℚ) * 90)) } := by
  simp [frameStep, h0, h90]

/-- One frame from a safe state stays safe and does not move the
orientation of any piece outside `sideIndices F`. -/
theorem frameStep_preserve_off (F : String) (s : Machine) (hs : SafeRun F s) :
    SafeRun F (frameStep s) ∧ ∀ i, i ∉ sideIndices F →
      (frameStep s).orientations.getD i Quat.id = s.orientations.getD i Quat.id := by
  obtain ⟨hF, hidle⟩ := hs
  by_cases hT : s.turns = 0
  · rw [frameStep_idle s hT (hidle hT)]
    exact ⟨⟨hF, hidle⟩, fun i _ => rfl⟩
  · by_cases hfin : 90 ≤ s.angle + speed
    · rw [frameStep_final s hT hfin]
      refine ⟨⟨hF, fun _ => by norm_num⟩, ?_⟩
      intro i hi
      show (commitAll s.orientations (sideIndices s.sideToRotate) _).getD i Quat.id = _
      rw [commitAll_getD _ _ _ (sideIndices_nodup _) i, if_neg]
      rw [hF]
      intro hc
      exact hi hc.1
    · rw [frameStep_anim s hT (not_le.mp hfin)]
      exact ⟨⟨hF, fun h => absurd h hT⟩, fun i _ => rfl⟩

/-- No frame of a run from a safe state moves any piece outside
`sideIndices F`. -/
theorem runFrames_preserve_off (F : String) (n : ℕ) (s : Machine) (hs : SafeRun F s) :
    ∀ i, i ∉ sideIndices F →
      (runFrames n s).orientations.getD i Quat.id = s.orientations.getD i Quat.id := by
  induction n generalizing s with
  | zero => exact fun i _ => rfl
  | succ n ih =>
    intro i hi
    obtain ⟨hsafe, hpres⟩ := frameStep_preserve_off F s hs
    show (runFrames n (frameStep s)).orientations.getD i Quat.id = _
    rw [ih (frameStep s) hsafe i hi, hpres i hi]

/-!
## Four quarter turns negate the quaternion
-/

/-- The fourth power of a quarter-turn quaternion about any face axis is
the quaternion `-1` (a 360° rotation is the *negative* identity in the
double cover). -/
theorem quarter_pow_four (F : String) (hF : F ∈ faceNames) (d : ℤ)
    (hd : d = -1 ∨ d = 1) :
    (Quat.mul (Quat.mul (Quat.mul (setAxisAngle (getSideRotationAxes F) ((d : ℚ) * 90))
      (setAxisAngle (getSideRotationAxes F) ((d : ℚ) * 90)))
        (setAxisAngle (getSideRotationAxes F) ((d : ℚ) * 90)))
          (setAxisAngle (getSideRotationAxes F) ((d : ℚ) * 90))) = ⟨0, 0, 0, -1⟩ := by
  fin_cases hF <;> rcases hd with rfl | rfl <;> decide

set_option maxHeartbeats 1000000 in
/-- The Hamilton product is associative. -/
theorem quat_mul_assoc (p r t : Quat) :
    Quat.mul p (Quat.mul r t) = Quat.mul (Quat.mul p r) t := by
  cases p with | mk px py pz pw =>
  cases r with | mk rx ry rz rw =>
  cases t with | mk tx ty tz tw =>
  cases px; cases py; cases pz; cases pw
  cases rx; cases ry; cases rz; cases rw
  cases tx; cases ty; cases tz; cases tw
  simp only [Quat.mul, Q2.mul_def, Q2.add_def, Q2.sub_def, Q2.mk.injEq]
  repeat' apply And.intro
  all_goals ring

/-- Composing the same quarter turn four times onto any orientation yields
the negated orientation. -/
theorem quarter_four_neg (F : String) (hF : F ∈ faceNames) (d : ℤ)
    (hd : d = -1 ∨ d = 1) (q : Quat) :
    (Quat.mul (setAxisAngle (getSideRotationAxes F) ((d : ℚ) * 90))
      (Quat.mul (setAxisAngle (getSideRotationAxes F) ((d : ℚ) * 90))
        (Quat.mul (setAxisAngle (getSideRotationAxes F) ((d : ℚ) * 90))
          (Quat.mul (setAxisAngle (getSideRotationAxes F) ((d : ℚ) * 90)) q)))) =
      Quat.neg q := by
  rw [quat_mul_assoc, quat_mul_assoc, quat_mul_assoc, quarter_pow_four F hF d hd,
    Quat.mul_negOne]

/-- The closed form of one complete turn triggered by a mapped key from a
state whose angle is 0. -/
theorem turnOnce_eq (key F : String) (hk : keyMap (toLowerCase key) = some F)
    (s : Machine) (hA : s.angle = 0) :
    turnOnce key s =
      { s with turns := 0
               angle := 0
               sideToRotate := F
               cubiesToRotate := sideIndices F
               axisOfRotation := getSideRotationAxes F
               orientations := commitAll s.orientations (sideIndices F)
                 (setAxisAngle (getSideRotationAxes F)
                   ((((if key = toLowerCase key then (-1 : ℤ) else 1) : ℤ) : ℚ) * 90)) } := by
  unfold turnOnce
  rw [keydownStep_mapped key F s hk]
  have hT : (if key = toLowerCase key then (-1 : ℤ) else 1) ≠ 0 := by
    split <;> omega
  rw [completeTurn
    { s with turns := if key = toLowerCase key then (-1 : ℤ) else 1, sideToRotate := F } hT hA]

/-- Four identical complete turns compose four quarter-turn quaternions
onto each piece of the turned face: the resulting orientation is the
*negation* of the orientation before the first turn. -/
theorem four_turns_neg (key F : String) (hk : keyMap (toLowerCase key) = some F)
    (s : Machine) (hA : s.angle = 0) (hlen : s.orientations.length = 27)
    (i : ℕ) (hi : i ∈ sideIndices F) :
    (turnOnce key (turnOnce key (turnOnce key (turnOnce key s)))).orientations.getD i Quat.id
      = Quat.neg (s.orientations.getD i Quat.id) := by
  have hF := keyMap_mem_faceNames _ _ hk
  have hi27 : i < 27 := sideIndices_lt27 F i hi
  have hd : (if key = toLowerCase key then (-1 : ℤ) else 1) = -1 ∨
      (if key = toLowerCase key then (-1 : ℤ) else 1) = 1 := by
    split
    · exact Or.inl rfl
    · exact Or.inr rfl
  have hstep : ∀ t : Machine, t.angle = 0 → t.orientations.length = 27 →
      (turnOnce key t).orientations.getD i Quat.id =
          Quat.mul (setAxisAngle (getSideRotationAxes F)
              ((((if key = toLowerCase key then (-1 : ℤ) else 1) : ℤ) : ℚ) * 90))
            (t.orientations.getD i Quat.id) ∧
        (turnOnce key t).angle = 0 ∧ (turnOnce key t).orientations.length = 27 := by
    intro t ht0 htlen
    rw [turnOnce_eq key F hk t ht0]
    refine ⟨?_, rfl, ?_⟩
    · show (commitAll t.orientations (sideIndices F) _).getD i Quat.id = _
      rw [commitAll_getD _ _ _ (sideIndices_nodup F) i, if_pos ⟨hi, by omega⟩]
    · show (commitAll t.orientations (sideIndices F) _).length = 27
      rw [commitAll_length]
      exact htlen
  obtain ⟨h1, ha1, hl1⟩ := hstep s hA hlen
  obtain ⟨h2, ha2, hl2⟩ := hstep _ ha1 hl1
  obtain ⟨h3, ha3, hl3⟩ := hstep _ ha2 hl2
  obtain ⟨h4, ha4, hl4⟩ := hstep _ ha3 hl3
  rw [h4, h3, h2, h1]
  exact quarter_four_neg F hF _ hd _

/-- Additional quaternion fact: negation is an involution. -/
theorem Quat.neg_neg_eq (q : Quat) : Quat.neg (Quat.neg q) = q := by
  cases q with | mk qx qy qz qw =>
  cases qx; cases qy; cases qz; cases qw
  simp [Quat.neg, Q2.neg_def]

/-- A complete turn leaves the controller idle and keeps 27 orientations. -/
theorem turnOnce_idle_len (key F : String) (hk : keyMap (toLowerCase key) = some F)
    (t : Machine) (ht0 : t.angle = 0) (htlen : t.orientations.length = 27) :
    (turnOnce key t).angle = 0 ∧ (turnOnce key t).orientations.length = 27 := by
  rw [turnOnce_eq key F hk t ht0]
  refine ⟨rfl, ?_⟩
  show (commitAll t.orientations (sideIndices F) _).length = 27
  rw [commitAll_length]
  exact htlen

/-!
## The claims
-/

set_option maxRecDepth 40000 in
/-- C1: the claim says an input event arriving while a turn is animating is
dropped.  The code does the opposite: from the reachable state 30 frames
into an `f` (front) turn — `turns = -1`, `angle = 45 ∈ (0, 90)` — a
keydown on `l` overwrites the active face with `left` mid-animation, so the
event is not dropped.  The spec itself marks ignore-while-animating as the
intended policy, so this is a code bug. -/
theorem C1_midturn_input_overwrites_active_face :
    (runFrames 30 (keydownStep "f" initMachine)).turns = -1 ∧
    (runFrames 30 (keydownStep "f" initMachine)).angle = 45 ∧
    (runFrames 30 (keydownStep "f" initMachine)).sideToRotate = "front" ∧
    (keydownStep "l" (runFrames 30 (keydownStep "f" initMachine))).sideToRotate = "left" ∧
    (keydownStep "l" (runFrames 30 (keydownStep "f" initMachine))).turns = -1 := by
  decide

/-- C2: when the accumulated angle reaches or passes 90, the finalize step
commits to each piece index of the active side exactly one rotation of
exactly `turns * 90` degrees about the side's axis — independent of how far
`angle + speed` overshot 90 — and leaves every other piece untouched. -/
theorem C2_finalize_commits_exactly_90 (s : Machine) (hT : s.turns ≠ 0)
    (hfin : 90 ≤ s.angle + speed) (i : ℕ) (hi : i < s.orientations.length) :
    (frameStep s).orientations.getD i Quat.id =
      if i ∈ sideIndices s.sideToRotate then
        Quat.mul (setAxisAngle (getSideRotationAxes s.sideToRotate) ((s.turns : ℚ) * 90))
          (s.orientations.getD i Quat.id)
      else s.orientations.getD i Quat.id := by
  rw [frameStep_final s hT hfin]
  show (commitAll s.orientations (sideIndices s.sideToRotate) _).getD i Quat.id = _
  rw [commitAll_getD _ _ _ (sideIndices_nodup _) i]
  by_cases hmem : i ∈ sideIndices s.sideToRotate
  · rw [if_pos ⟨hmem, hi⟩, if_pos hmem]
  · rw [if_neg (fun hc => hmem hc.1), if_neg hmem]

/-- Witness for C2 at a concrete overshooting state: `angle = 89`,
`turns = 1`, side `right`, piece 18. -/
theorem C2_finalize_commits_exactly_90_witness :
    (frameStep { initMachine with turns := 1, sideToRotate := "right", angle := 89
      }).orientations.getD 18 Quat.id =
      if 18 ∈ sideIndices "right" then
        Quat.mul (setAxisAngle (getSideRotationAxes "right") (((1 : ℤ) : ℚ) * 90))
          ({ initMachine with turns := 1, sideToRotate := "right", angle := 89
            }.orientations.getD 18 Quat.id)
      else { initMachine with turns := 1, sideToRotate := "right", angle := 89
        }.orientations.getD 18 Quat.id :=
  C2_finalize_commits_exactly_90
    { initMachine with turns := 1, sideToRotate := "right", angle := 89 }
    (by decide) (by decide) 18 (by decide)

/-- C3 counterexample: the claim says each tick adds `d·speed·Δt` (signed
by the direction and scaled by elapsed wall-clock time).  From the state
right after a lowercase `r` keydown (`turns = -1`, `angle = 0`) the next
frame moves the angle *up* to `3/2`, which `0 + (-1)·speed·Δt` cannot equal
for any positive `Δt`: the increment is independent of the direction sign
(and of any measured Δt — the code has no Δt at all). -/
theorem C3_increment_not_signed_or_scaled :
    (frameStep (keydownStep "r" initMachine)).angle = 3/2 ∧
    ¬ ∃ dt : ℚ, 0 < dt ∧
      (frameStep (keydownStep "r" initMachine)).angle =
        (keydownStep "r" initMachine).angle +
          ((keydownStep "r" initMachine).turns : ℚ) * speed * dt := by
  have h1 : (frameStep (keydownStep "r" initMachine)).angle = 3/2 := by decide
  refine ⟨h1, ?_⟩
  rintro ⟨dt, hdt, heq⟩
  rw [h1, show (keydownStep "r" initMachine).angle = 0 from by decide,
    show (keydownStep "r" initMachine).turns = -1 from by decide] at heq
  norm_num [speed] at heq
  linarith

/-- C3 as amended: while a turn is animating, each frame adds the fixed
per-frame constant `speed = 3/2` degrees to the accumulated angle; the
increment carries no direction sign and no wall-clock scaling (the sign
enters only through `turns * angle` at draw time and `turns * 90` at
finalize). -/
theorem C3_amended_fixed_per_frame_increment (s : Machine) (hT : s.turns ≠ 0)
    (h90 : s.angle + speed < 90) :
    (frameStep s).angle = s.angle + speed ∧ speed = 3/2 := by
  rw [frameStep_anim s hT h90]
  exact ⟨rfl, rfl⟩

/-- Witness for the amended C3 at the state right after a lowercase `r`
keydown. -/
theorem C3_amended_fixed_per_frame_increment_witness :
    (frameStep (keydownStep "r" initMachine)).angle =
      (keydownStep "r" initMachine).angle + speed ∧ speed = 3/2 :=
  C3_amended_fixed_per_frame_increment (keydownStep "r" initMachine)
    (by decide) (by decide)

/-- C4: from every reachable animating state the accumulated angle is
nonnegative, the finalize transition fires on a frame exactly when the
post-increment angle satisfies `|angle| ≥ 90` (a greater-or-equal test, so
overshoot still terminates), and when it fires the controller is idle
afterwards: `turns = 0` and `angle = 0`. -/
theorem C4_finalize_on_geq_90 (s : Machine) (hR : Reach s) (hT : s.turns ≠ 0) :
    0 ≤ s.angle ∧
    ((frameStep s).turns = 0 ↔ 90 ≤ |s.angle + speed|) ∧
    (90 ≤ |s.angle + speed| → (frameStep s).turns = 0 ∧ (frameStep s).angle = 0) := by
  obtain ⟨-, h0, -, -, -, -, -⟩ := reach_inv s hR
  have habs : |s.angle + speed| = s.angle + speed := by
    rw [abs_of_nonneg]
    have hsp : (0 : ℚ) < speed := by norm_num [speed]
    linarith
  rw [habs]
  refine ⟨h0, ?_, ?_⟩
  · constructor
    · intro hfin
      by_contra hlt
      rw [frameStep_anim s hT (not_le.mp hlt)] at hfin
      exact hT hfin
    · intro hge
      rw [frameStep_final s hT hge]
  · intro hge
    rw [frameStep_final s hT hge]
    exact ⟨rfl, rfl⟩

/-- Witness for C4 at the reachable state right after an `r` keydown. -/
theorem C4_finalize_on_geq_90_witness :
    0 ≤ (keydownStep "r" initMachine).angle ∧
    ((frameStep (keydownStep "r" initMachine)).turns = 0 ↔
      90 ≤ |(keydownStep "r" initMachine).angle + speed|) ∧
    (90 ≤ |(keydownStep "r" initMachine).angle + speed| →
      (frameStep (keydownStep "r" initMachine)).turns = 0 ∧
      (frameStep (keydownStep "r" initMachine)).angle = 0) :=
  C4_finalize_on_geq_90 (keydownStep "r" initMachine)
    (Reach.key "r" Reach.init) (by decide)

/-- C5: for a turn of face `F` triggered by a mapped key, no piece outside
`sideIndices F` ever has its orientation moved, at any frame count `n` —
in particular the orientations outside the turned face are bit-for-bit
unchanged when the turn finalizes. -/
theorem C5_untouched_pieces (key F : String) (hk : keyMap (toLowerCase key) = some F)
    (s : Machine) (n : ℕ) (i : ℕ) (hi : i ∉ sideIndices F) :
    (runFrames n (keydownStep key s)).orientations.getD i Quat.id =
      s.orientations.getD i Quat.id := by
  rw [keydownStep_mapped key F s hk]
  have hsafe : SafeRun F
      { s with turns := if key = toLowerCase key then (-1 : ℤ) else 1, sideToRotate := F } := by
    refine ⟨rfl, ?_⟩
    intro h0
    have hz : (if key = toLowerCase key then (-1 : ℤ) else 1) = 0 := h0
    split at hz <;> omega
  exact runFrames_preserve_off F n _ hsafe i hi

/-- Witness for C5: a full 60-frame `right` turn leaves piece 0 (on the
left face) bit-identical. -/
theorem C5_untouched_pieces_witness :
    (runFrames 60 (keydownStep "r" initMachine)).orientations.getD 0 Quat.id =
      initMachine.orientations.getD 0 Quat.id :=
  C5_untouched_pieces "r" "right" (by decide) initMachine 60 0 (by decide)

/-- C6 counterexample: four identical complete `right` turns do *not*
return piece 18 to its prior orientation — the committed quaternion is the
negation of the identity, not the identity. -/
theorem C6_four_turns_not_prior_value :
    (turnOnce "r" (turnOnce "r" (turnOnce "r" (turnOnce "r" initMachine)))).orientations.getD
        18 Quat.id ≠ initMachine.orientations.getD 18 Quat.id := by
  rw [four_turns_neg "r" "right" (by decide) initMachine rfl (by decide) 18 (by decide)]
  decide

/-- C6 as amended: four identical complete turns do *not* return a turned
piece's orientation to its prior stored value — the four quarter-turn
quaternions compose to the quaternion `-1`, so the committed orientation is
the *negation* of the prior one: the same spatial rotation (`q` and `-q`
act identically) with the opposite sign.  The equality is exact in this
embedding's ℚ[√2] arithmetic; the program's float32 gl-matrix arithmetic
realizes the negation only up to rounding (`w ≈ ∓0.99999988`), so no
bit-level statement about the program's stored value is made — only that
the sign flips, which is robust to that rounding and is what refutes the
original claim. -/
theorem C6_amended_four_turns_negate (key F : String)
    (hk : keyMap (toLowerCase key) = some F) (s : Machine) (hA : s.angle = 0)
    (hlen : s.orientations.length = 27) (i : ℕ) (hi : i ∈ sideIndices F) :
    (turnOnce key (turnOnce key (turnOnce key (turnOnce key s)))).orientations.getD i Quat.id
      = Quat.neg (s.orientations.getD i Quat.id) :=
  four_turns_neg key F hk s hA hlen i hi

/-- Witness for the amended C6: piece 18 under four `r` turns. -/
theorem C6_amended_four_turns_negate_witness :
    (turnOnce "r" (turnOnce "r" (turnOnce "r" (turnOnce "r" initMachine)))).orientations.getD
        18 Quat.id = Quat.neg (initMachine.orientations.getD 18 Quat.id) :=
  C6_amended_four_turns_negate "r" "right" (by decide) initMachine rfl (by decide)
    18 (by decide)

set_option synthInstance.maxSize 1024 in
set_option synthInstance.maxHeartbeats 1000000 in
/-- C7: the face index table matches the grid coordinates — a piece index
is in the `right` bin iff its x-coordinate is `+2.25`, `left` iff `-2.25`,
`middle` iff `0`, and likewise `top`/`bottom`/`equator` for y and
`front`/`back`/`standing` for z; every bin holds exactly 9 indices, and
every index lies in exactly 3 bins, one per axis. -/
theorem C7_face_index_table (i : ℕ) (hi : i < 27) :
    (i ∈ sideIndices "right" ↔ posX i = 9/4) ∧
    (i ∈ sideIndices "left" ↔ posX i = -(9/4)) ∧
    (i ∈ sideIndices "middle" ↔ posX i = 0) ∧
    (i ∈ sideIndices "top" ↔ posY i = 9/4) ∧
    (i ∈ sideIndices "bottom" ↔ posY i = -(9/4)) ∧
    (i ∈ sideIndices "equator" ↔ posY i = 0) ∧
    (i ∈ sideIndices "front" ↔ posZ i = 9/4) ∧
    (i ∈ sideIndices "back" ↔ posZ i = -(9/4)) ∧
    (i ∈ sideIndices "standing" ↔ posZ i = 0) ∧
    (∀ F, F ∈ faceNames → (sideIndices F).length = 9) ∧
    (faceNames.filter (fun F => decide (i ∈ sideIndices F))).length = 3 ∧
    ((["left", "middle", "right"] : List String).filter
      (fun F => decide (i ∈ sideIndices F))).length = 1 ∧
    ((["bottom", "equator", "top"] : List String).filter
      (fun F => decide (i ∈ sideIndices F))).length = 1 ∧
    ((["back", "standing", "front"] : List String).filter
      (fun F => decide (i ∈ sideIndices F))).length = 1 := by
  revert i
  decide

/-- Witness for C7 at piece index 18 (the back-bottom-right corner). -/
theorem C7_face_index_table_witness :
    (18 ∈ sideIndices "right" ↔ posX 18 = 9/4) ∧
    (18 ∈ sideIndices "left" ↔ posX 18 = -(9/4)) ∧
    (18 ∈ sideIndices "middle" ↔ posX 18 = 0) ∧
    (18 ∈ sideIndices "top" ↔ posY 18 = 9/4) ∧
    (18 ∈ sideIndices "bottom" ↔ posY 18 = -(9/4)) ∧
    (18 ∈ sideIndices "equator" ↔ posY 18 = 0) ∧
    (18 ∈ sideIndices "front" ↔ posZ 18 = 9/4) ∧
    (18 ∈ sideIndices "back" ↔ posZ 18 = -(9/4)) ∧
    (18 ∈ sideIndices "standing" ↔ posZ 18 = 0) ∧
    (∀ F, F ∈ faceNames → (sideIndices F).length = 9) ∧
    (faceNames.filter (fun F => decide (18 ∈ sideIndices F))).length = 3 ∧
    ((["left", "middle", "right"] : List String).filter
      (fun F => decide (18 ∈ sideIndices F))).length = 1 ∧
    ((["bottom", "equator", "top"] : List String).filter
      (fun F => decide (18 ∈ sideIndices F))).length = 1 ∧
    ((["back", "standing", "front"] : List String).filter
      (fun F => decide (18 ∈ sideIndices F))).length = 1 :=
  C7_face_index_table 18 (by decide)

set_option maxRecDepth 40000 in
/-- C8: from the solved cube, one complete uppercase-`R` turn of the
`right` face (direction `+1`) leaves each of the 9 pieces whose initial
x-coordinate is `+2.25` with exactly one 90° rotation about the `+x` axis
composed into its orientation, leaves the other 18 pieces bit-identical to
their initial orientation, and returns the controller to idle. -/
theorem C8_right_turn_scenario (i : ℕ) (hi : i < 27) :
    ((runFrames 60 (keydownStep "R" initMachine)).orientations.getD i Quat.id =
      if posX i = 9/4 then
        Quat.mul (setAxisAngle ⟨1, 0, 0⟩ 90) (initMachine.orientations.getD i Quat.id)
      else initMachine.orientations.getD i Quat.id) ∧
    (runFrames 60 (keydownStep "R" initMachine)).turns = 0 ∧
    (runFrames 60 (keydownStep "R" initMachine)).angle = 0 := by
  rw [completeTurn (keydownStep "R" initMachine) (by decide) (by decide)]
  revert i
  decide

/-- Witness for C8 at piece 18 (initial x-coordinate `+2.25`). -/
theorem C8_right_turn_scenario_witness :
    ((runFrames 60 (keydownStep "R" initMachine)).orientations.getD 18 Quat.id =
      if posX 18 = 9/4 then
        Quat.mul (setAxisAngle ⟨1, 0, 0⟩ 90) (initMachine.orientations.getD 18 Quat.id)
      else initMachine.orientations.getD 18 Quat.id) ∧
    (runFrames 60 (keydownStep "R" initMachine)).turns = 0 ∧
    (runFrames 60 (keydownStep "R" initMachine)).angle = 0 :=
  C8_right_turn_scenario 18 (by decide)

/-- C9: every reachable state's 27 orientations are unit quaternions —
they start at the identity and every finalize step multiplies in a
unit-norm quarter-turn quaternion, which preserves the squared norm
exactly (the exact-arithmetic form of the group-closure invariant). -/
theorem C9_unit_norm_invariant (s : Machine) (hR : Reach s) (i : ℕ) (hi : i < 27) :
    Quat.normSq (s.orientations.getD i Quat.id) = 1 := by
  obtain ⟨-, -, -, -, -, -, hnorm⟩ := reach_inv s hR
  exact hnorm i hi

/-- Witness for C9: after one full `right` turn (a reachable state built
from 60 frame steps), piece 18 still has a unit orientation. -/
theorem C9_unit_norm_invariant_witness :
    Quat.normSq ((runFrames 60 (keydownStep "r"
      initMachine)).orientations.getD 18 Quat.id) = 1 :=
  C9_unit_norm_invariant (runFrames 60 (keydownStep "r" initMachine))
    (by
      have h : ∀ n : ℕ, ∀ t : Machine, Reach t → Reach (runFrames n t) := by
        intro n
        induction n with
        | zero => exact fun t ht => ht
        | succ n ih => exact fun t ht => ih (frameStep t) (Reach.frame ht)
      exact h 60 _ (Reach.key "r" Reach.init))
    18 (by decide)

/-- C10: a keydown whose lowercased key is not one of the nine mapped keys
leaves the whole turn state unchanged — `turns` and `sideToRotate` keep
their values and no rotation begins, so no unknown face name can reach the
index-table lookup from the input path. -/
theorem C10_unmapped_key_noop (key : String) (s : Machine)
    (h : toLowerCase key ∉ (["f", "s", "k", "t", "e", "b", "r", "m", "l"] : List String)) :
    keydownStep key s = s := by
  apply keydownStep_unmapped
  simp only [List.mem_cons, List.not_mem_nil, or_false, not_or] at h
  obtain ⟨h1, h2, h3, h4, h5, h6, h7, h8, h9⟩ := h
  unfold keyMap
  rw [if_neg h1, if_neg h2, if_neg h3, if_neg h4, if_neg h5, if_neg h6, if_neg h7,
    if_neg h8, if_neg h9]

/-- Witness for C10: an `x` keydown mid-animation changes nothing. -/
theorem C10_unmapped_key_noop_witness :
    keydownStep "x" { initMachine with turns := -1, sideToRotate := "front", angle := 45 } =
      { initMachine with turns := -1, sideToRotate := "front", angle := 45 } :=
  C10_unmapped_key_noop "x" _ (by decide)
